import Mathlib

/-!
Verification development for the lightning-language-server completion core.

Shallow embedding of two source files:
- packages/lwc-language-server/src/html-language-service/services/htmlCompletion.ts
  (context-resolution engine: doComplete, doTagComplete and their suggestion builders)
- packages/lwc-language-server/src/metadata-utils/custom-components-util.ts
  (custom tag registry: LWC_TAGS map, loadStandardComponents, addCustomTag,
   removeCustomTag, addCustomTagFromFile, loadCustomTagsFromFiles)

External collaborators (the token scanner, the parse tree, tag providers, the
metadata compiler, the document accessor) are modelled at their interface as
explicit parameters, as the specification prescribes.  Machine strings are
Lean Strings; offsets are Nat.
-/

/-! ## Basic LSP data types (vscode-languageserver-types, external library) -/

/-- Modelled from the spec: an editor position (line, character). -/
structure Position where
  line : Nat
  character : Nat
deriving DecidableEq, Repr

/-- Modelled from the spec: a range between two positions.  The source field
named end is renamed endPos because end is a Lean keyword. -/
structure Range where
  start : Position
  endPos : Position
deriving DecidableEq, Repr

/-- Modelled from the spec: a document location (uri plus range). -/
structure Location where
  uri : String
  range : Range
deriving DecidableEq, Repr

/-- Modelled from the spec: an edit is either a literal replace over a range or
an insertion of (snippet) text at a position.  These are the two constructor
forms TextEdit.replace and TextEdit.insert used by the source. -/
inductive TextEdit where
  | replace (range : Range) (newText : String)
  | insert (pos : Position) (newText : String)
deriving DecidableEq, Repr

/-- Completion item kinds used by the source (CompletionItemKind). -/
inductive CompletionItemKind where
  | Property
  | Function
  | Value
  | Unit
  | Reference
deriving DecidableEq, Repr

/-- Insert text formats used by the source (InsertTextFormat). -/
inductive InsertTextFormat where
  | PlainText
  | Snippet
deriving DecidableEq, Repr

/-- A completion item as built by htmlCompletion.ts; fields the source
sometimes omits are Options. -/
structure CompletionItem where
  label : String
  kind : CompletionItemKind
  detail : Option String := none
  documentation : Option String := none
  filterText : Option String := none
  textEdit : TextEdit
  insertTextFormat : InsertTextFormat
deriving DecidableEq, Repr

/-- A completion list; isIncomplete is always false in this engine. -/
structure CompletionList where
  isIncomplete : Bool
  items : List CompletionItem
deriving DecidableEq, Repr

/-! ## JavaScript string primitives used by the source -/

/-- Character at index i; none when out of bounds (JS charAt then yields the
empty string, JS bracket indexing yields undefined; call sites model the
difference explicitly). -/
def charAtJS (s : String) (i : Nat) : Option Char :=
  (s.data.drop i).head?

/-- JS String.substring(a, b) for a less than or equal to b: characters of the
half-open interval. -/
def substringJS (s : String) (a b : Nat) : String :=
  ⟨(s.data.drop a).take (b - a)⟩

/-- The ASCII whitespace characters matched by the source regular expression
(backslash-s), restricted to ASCII as the embedding's character model. -/
def isWhiteSpaceChar (c : Char) : Bool :=
  c = ' ' || c = '\t' || c = '\n' || c = '\r' || c.toNat = 11 || c.toNat = 12

/-- isWhiteSpace applied to the result of JS charAt: out of bounds gives the
empty string, which the source regex accepts (true). -/
def isWsCharAt : Option Char → Bool
  | none => true
  | some c => isWhiteSpaceChar c

/-- JS String.toLowerCase over the character list (ASCII letters, matching
the tag and attribute names this code lower-cases). -/
def jsToLowerCase (s : String) : String :=
  ⟨s.data.map Char.toLower⟩

/-- isWhiteSpace applied to a JS bracket-indexed character: out of bounds gives
undefined, which the source regex rejects (false). -/
def isWsIndex : Option Char → Bool
  | none => false
  | some c => isWhiteSpaceChar c

/-! ## Registry data model

TagInfo and AttributeInfo live in the lightning-lsp-common package of this
repository, which is not included under src/.  Modelled from the spec:
TagRecord carries tagName, isCustom, attributes, declarationLocation?,
documentation?, properties, methods. -/

/-- Modelled from the spec: an attribute record (name, documentation?, type?,
member kind hint?, detail?), matching the AttributeInfo constructor arguments
used by the source. -/
structure AttributeInfo where
  name : String
  documentation : Option String := none
  typeName : Option String := none
  memberType : Option String := none
  detail : Option String := none
deriving DecidableEq, Repr

/-- Modelled from the spec: a TagRecord / TagInfo registry entry. -/
structure TagInfo where
  lwc : Bool
  attributes : List AttributeInfo
  location : Option Location := none
  documentation : Option String := none
  name : Option String := none
  namespaceName : Option String := none
  properties : List String := []
  methods : List String := []
deriving DecidableEq, Repr

/-- Modelled from the spec: the compiler's declaration source location
(metadata.declarationLoc). -/
structure DeclLoc where
  startLine : Nat
  startColumn : Nat
  endLine : Nat
  endColumn : Nat
deriving DecidableEq, Repr

/-- Modelled from the spec: compiler metadata carries doc, declarationLoc?,
plus derivable attributes, properties and methods (the views produced by the
external helpers extractAttributes, getProperties, getMethods). -/
structure Metadata where
  doc : Option String := none
  declarationLoc : Option DeclLoc := none
  attributes : List AttributeInfo := []
  properties : List String := []
  methods : List String := []
deriving DecidableEq, Repr

/-- Modelled from the spec: extractAttributes derives the attribute list from
compiler metadata (the helper itself is in javascript/compiler.ts, not under
src/). -/
def extractAttributes (metadata : Metadata) (_uri : String) : List AttributeInfo :=
  metadata.attributes

/-- Modelled from the spec: getProperties derives the property list from
compiler metadata. -/
def getProperties (metadata : Metadata) : List String :=
  metadata.properties

/-- Modelled from the spec: getMethods derives the method list from compiler
metadata. -/
def getMethods (metadata : Metadata) : List String :=
  metadata.methods

/-- Modelled from the spec: toVSCodeRange converts the compiler's declaration
location into an editor range. -/
def toVSCodeRange (l : DeclLoc) : Range :=
  { start := { line := l.startLine, character := l.startColumn },
    endPos := { line := l.endLine, character := l.endColumn } }

/-! ## The LWC_TAGS map

LWC_TAGS is a JS Map from tag name to TagInfo.  A Map holds at most one entry
per key; it is embedded as an association list: set replaces the first binding
of the key in place (keeping its position, as Map.set does) or appends a fresh
binding, get returns the first binding, delete removes the key's binding. -/

abbrev TagMap := List (String × TagInfo)

/-- JS Map.set: replace in place when the key is present, else append. -/
def mapSet : TagMap → String → TagInfo → TagMap
  | [], k, v => [(k, v)]
  | (k', v') :: rest, k, v =>
    if k' = k then (k, v) :: rest else (k', v') :: mapSet rest k v

/-- JS Map.get: the binding of the key, if any. -/
def mapGet : TagMap → String → Option TagInfo
  | [], _ => none
  | (k', v') :: rest, k => if k' = k then some v' else mapGet rest k

/-- JS Map.delete: remove the key's binding. -/
def mapDelete (m : TagMap) (k : String) : TagMap :=
  m.filter (fun p => p.1 != k)

/-- getLwcByTag from custom-components-util.ts: LWC_TAGS.get(tag). -/
def getLwcByTag (m : TagMap) (tag : String) : Option TagInfo :=
  mapGet m tag

/-- removeCustomTag from custom-components-util.ts: LWC_TAGS.delete(tag). -/
def removeCustomTag (m : TagMap) (tag : String) : TagMap :=
  mapDelete m tag

/-- JS tag.split(dash)[0]: the segment before the first dash (the whole string
when no dash occurs). -/
def jsSplitHead (s : String) (sep : Char) : String :=
  ⟨s.data.takeWhile (fun c => c ≠ sep)⟩

/-- The TagInfo record built by addCustomTag from the compiler metadata:
new TagInfo(true, attributes, location, doc, tag, namespace, properties,
methods), where location defaults to the zero range when declarationLoc is
absent. -/
def customTagInfo (tag uri : String) (metadata : Metadata) : TagInfo :=
  let doc := metadata.doc
  let attributes := extractAttributes metadata uri
  let range : Range :=
    match metadata.declarationLoc with
    | some l => toVSCodeRange l
    | none => { start := { line := 0, character := 0 }, endPos := { line := 0, character := 0 } }
  let location : Location := { uri := uri, range := range }
  let namespaceName := jsSplitHead tag '-'
  { lwc := true
    attributes := attributes
    location := some location
    documentation := doc
    name := some tag
    namespaceName := some namespaceName
    properties := getProperties metadata
    methods := getMethods metadata }

/-- addCustomTag from custom-components-util.ts: build the record from the
compiler metadata and LWC_TAGS.set it. -/
def addCustomTag (m : TagMap) (tag uri : String) (metadata : Metadata) : TagMap :=
  mapSet m tag (customTagInfo tag uri metadata)

/-! ## Standard components load -/

/-- One attribute of the bundled standard-tag description (camelCase name). -/
structure StdAttr where
  name : String
  description : Option String := none
  typeName : Option String := none
deriving DecidableEq, Repr

/-- One entry of the bundled standard-tag description. -/
structure StdTagDesc where
  description : Option String := none
  attributes : Option (List StdAttr) := none
deriving DecidableEq, Repr

/-- The camel-to-kebab conversion of loadStandardComponents:
a.name.replace of every ASCII capital letter by a dash followed by its lower
case form. -/
def kebabCase (s : String) : String :=
  ⟨s.data.foldr (fun c acc => if c.isUpper then '-' :: c.toLower :: acc else c :: acc) []⟩

/-- The TagInfo built for one standard tag: new TagInfo(true, attrs) with each
attribute name kebab-cased and detail set to the fixed standard marker, then
documentation assigned. -/
def stdTagInfo (d : StdTagDesc) : TagInfo :=
  { lwc := true
    attributes :=
      match d.attributes with
      | some attrs =>
        attrs.map (fun a =>
          { name := kebabCase a.name
            documentation := a.description
            typeName := a.typeName
            memberType := none
            detail := some "LWC standard attribute" })
      | none => []
    documentation := d.description }

/-- loadStandardComponents from custom-components-util.ts: for every tag of the
bundled description (modelled as an association list, since file reading and
JSON parsing are external), register its record under the fixed prefix. -/
def loadStandardComponents (lwcStandard : List (String × StdTagDesc)) (m : TagMap) : TagMap :=
  lwcStandard.foldl (fun acc p => mapSet acc ("lightning-" ++ p.1) (stdTagInfo p.2)) m

/-! ## Per-file scan (addCustomTagFromFile, loadCustomTagsFromFiles) -/

/-- The inputs that decide the processing of one component file during a scan:
the resolved tag identity (componentUtil.tagFromFile, external), and the
outcome of the external compileFile call, which either throws (error) or
returns metadata? together with a diagnostics list. -/
structure ScanFile where
  file : String
  uri : String
  tag : Option String
  compileResult : Except String (Option Metadata × List String)
deriving Repr

/-- addCustomTagFromFile from custom-components-util.ts.  Returns the updated
map together with the messages written to the diagnostic sink (console.log):
non-empty diagnostics are logged, a compiler throw is caught and logged, and
the record is upserted only when metadata is present. -/
def addCustomTagFromFile (m : TagMap) (f : ScanFile) : TagMap × List String :=
  match f.tag with
  | none => (m, [])
  | some tag =>
    match f.compileResult with
    | Except.error _ => (m, ["error compiling " ++ f.file])
    | Except.ok (metadata, diagnostics) =>
      let logs := if diagnostics.length > 0 then ["error compiling " ++ f.file] else []
      match metadata with
      | none => (m, logs)
      | some md => (addCustomTag m tag f.uri md, logs)

/-- loadCustomTagsFromFiles from custom-components-util.ts: process every file
in order, accumulating the sink messages; no failure aborts the iteration. -/
def loadCustomTagsFromFiles (m : TagMap) (files : List ScanFile) : TagMap × List String :=
  files.foldl (fun acc f =>
    let r := addCustomTagFromFile acc.1 f
    (r.1, acc.2 ++ r.2)) (m, [])

/-! ## Scanner interface (htmlScanner.ts, external)

The scanner is restart-only: created fresh at a text offset (optionally with
an initial state) and scanned forward.  It is embedded as a function from the
creation offset and initial state to the produced token stream; the end of the
list stands for the EOS token.  Each token records the scanner state observed
right after scanning it (getScannerState). -/

/-- Token types of the scanner interface used by htmlCompletion.ts. -/
inductive TokenType where
  | StartTagOpen
  | StartTag
  | StartTagClose
  | EndTagOpen
  | EndTag
  | EndTagClose
  | DelimiterAssign
  | AttributeName
  | AttributeValue
  | Whitespace
  | Content
  | Unknown
  | EOS
deriving DecidableEq, Repr

/-- Scanner states of the scanner interface used by htmlCompletion.ts. -/
inductive ScannerState where
  | WithinContent
  | AfterOpeningStartTag
  | WithinTag
  | AfterAttributeName
  | BeforeAttributeValue
  | AfterOpeningEndTag
  | WithinEndTag
deriving DecidableEq, Repr

/-- A scanned token: type, start offset, end offset, text, and the scanner
state right after it was scanned. -/
structure Token where
  type : TokenType
  offset : Nat
  endPos : Nat
  text : String
  state : ScannerState
deriving DecidableEq, Repr

/-- The restart-only scanner: createScanner(text, offset, state) as a token
stream.  The text is fixed per document (captured in the environment). -/
abbrev ScanFun := Nat → ScannerState → List Token

/-! ## Parse tree interface (htmlParser.ts, external)

A parse-tree node carries tag?, start and end offsets, closed flag and
endTagStart?, plus a weak back-reference to its parent.  The code under
verification only ever walks the parent chain upwards, so a node is embedded
as its own data followed by the data of its ancestors, nearest first; the
empty chain stands for an absent node (findNodeBefore returning nothing). -/

/-- The per-node fields read by htmlCompletion.ts. -/
structure NodeData where
  tag : Option String
  start : Nat
  endOffset : Nat
  closed : Bool
  endTagStart : Option Nat
deriving DecidableEq, Repr

/-- A node as the chain of itself and its ancestors ([] = no node). -/
abbrev NodeChain := List NodeData

/-- The source comparison curr.endTagStart > offset, where an absent
endTagStart (undefined) compares false. -/
def endTagStartAfter (offset : Nat) : Option Nat → Bool
  | some e => offset < e
  | none => false

/-! ## Tag provider interface (tagProviders.ts, external)

Emit-callback collectors are embedded as list-returning functions. -/

/-- The info record passed to the collectTags and collectAttributes emitters. -/
structure TagProviderInfo where
  documentation : Option String := none
  detail : Option String := none
deriving DecidableEq, Repr

/-- A tag provider: id, applicability by language id, and its vocabulary. -/
structure TagProvider where
  id : String
  applicable : String → Bool
  tags : List (String × TagProviderInfo)
  attributes : String → List (String × TagProviderInfo × Option String)
  values : String → String → List String
  expressionValues : String → List String

/-- CompletionConfiguration: per-provider enable flags (a missing key counts
as enabled; only an explicit false disables) and the auto-close suppression
flag. -/
structure Settings where
  hideAutoCompleteProposals : Bool
  enabled : String → Bool

/-- Everything doComplete closes over: the document text and language id, the
provider list, optional settings, the scanner factory, the void-element
predicate (isEmptyElement, external), and the template tag identity that
componentUtil.tagFromFile resolves from the document uri and workspace flag
(external pure function, supplied resolved). -/
structure CompletionEnv where
  text : String
  languageId : String
  providers : List TagProvider
  settings : Option Settings
  scan : ScanFun
  isEmptyElement : String → Bool
  templateTag : Option String

/-- The filtered provider list of doComplete: applicable to the language and
not explicitly disabled by settings. -/
def enabledProviders (env : CompletionEnv) : List TagProvider :=
  env.providers.filter (fun p =>
    p.applicable env.languageId &&
      (match env.settings with
       | none => true
       | some s => s.enabled p.id))

/-- settings && settings.hideAutoCompleteProposals. -/
def hideAuto (env : CompletionEnv) : Bool :=
  match env.settings with
  | none => false
  | some s => s.hideAutoCompleteProposals

/-! ## Document accessor (external)

Modelled from the spec: positionAt maps an offset to its line and character,
with lines delimited by newline characters; offsets past the end clamp. -/

/-- Modelled from the spec: document.positionAt. -/
def positionAt (text : String) (offset : Nat) : Position :=
  let pre := text.data.take offset
  { line := pre.count '\n'
    character := (pre.reverse.takeWhile (fun c => c ≠ '\n')).length }

/-! ## doComplete helpers (htmlCompletion.ts) -/

/-- getReplaceRange: clamp the start to the cursor offset, then convert both
offsets to positions. -/
def getReplaceRange (text : String) (offset replaceStart replaceEnd : Nat) : Range :=
  let rs := if replaceStart > offset then offset else replaceStart
  { start := positionAt text rs, endPos := positionAt text replaceEnd }

/-- getLineIndent inner loop: inspect characters leftwards from index k-1;
a newline (or the empty charAt result past the end, which the source regex
treatment of the empty string accepts) yields the substring from there to
offset, a non-whitespace character yields null. -/
def getLineIndentAux (text : String) (offset : Nat) : Nat → Option String
  | 0 => some (substringJS text 0 offset)
  | k + 1 =>
    match charAtJS text k with
    | none => some (substringJS text (k + 1) offset)
    | some ch =>
      if ch = '\n' ∨ ch = '\r' then some (substringJS text (k + 1) offset)
      else if ¬ isWhiteSpaceChar ch then none
      else getLineIndentAux text offset k

/-- getLineIndent from htmlCompletion.ts: the pure-whitespace prefix of the
line containing offset, or none when a non-whitespace character precedes
offset on that line. -/
def getLineIndent (text : String) (offset : Nat) : Option String :=
  getLineIndentAux text offset offset

/-- isFollowedBy from htmlCompletion.ts: restart the scanner at the offset in
the given state, skip whitespace tokens, and compare the next token type (an
exhausted stream stands for EOS). -/
def isFollowedBy (scan : ScanFun) (offset : Nat) (initialState : ScannerState)
    (expectedToken : TokenType) : Bool :=
  match (scan offset initialState).dropWhile (fun t => t.type = TokenType.Whitespace) with
  | [] => expectedToken = TokenType.EOS
  | t :: _ => t.type = expectedToken

/-- getWordStart from htmlCompletion.ts: scan left from offset to limit over
non-whitespace characters (bracket indexing: out of bounds is not
whitespace).  Structural recursion on the offset. -/
def getWordStart (text : String) (offset limit : Nat) : Nat :=
  match offset with
  | 0 => 0
  | o + 1 =>
    if limit < o + 1 then
      if isWsIndex (charAtJS text o) then o + 1
      else getWordStart text o limit
    else o + 1

/-- getWordEnd inner loop with fuel equal to the remaining distance to the
limit (the loop advances by one while strictly below the limit, so the fuel
is exact). -/
def getWordEndAux (text : String) (limit : Nat) : Nat → Nat → Nat
  | 0, offset => offset
  | fuel + 1, offset =>
    if offset < limit then
      if isWsIndex (charAtJS text offset) then offset
      else getWordEndAux text limit fuel (offset + 1)
    else offset

/-- getWordEnd from htmlCompletion.ts: scan right from offset to limit over
non-whitespace characters. -/
def getWordEnd (text : String) (offset limit : Nat) : Nat :=
  getWordEndAux text limit (limit - offset) offset

/-- The replace-end loop of collectAttributeNameSuggestions, with fuel equal
to the remaining distance to nameEnd (the loop advances by one while strictly
below nameEnd, so the fuel is exact). -/
def scanReplaceEndAux (text : String) (nameEnd : Nat) : Nat → Nat → Nat
  | 0, replaceEnd => replaceEnd
  | fuel + 1, replaceEnd =>
    if replaceEnd < nameEnd then
      if charAtJS text replaceEnd = some '<' then replaceEnd
      else scanReplaceEndAux text nameEnd fuel (replaceEnd + 1)
    else replaceEnd

/-- The replace-end loop of collectAttributeNameSuggestions: extend from the
cursor towards nameEnd, stopping at an opening angle bracket. -/
def scanReplaceEnd (text : String) (replaceEnd nameEnd : Nat) : Nat :=
  scanReplaceEndAux text nameEnd (nameEnd - replaceEnd) replaceEnd

/-- The backward walk of the EndTag case of doComplete: from index k-1, skip
whitespace (charAt semantics: out of bounds counts as whitespace) and return
the index of a slash, or none at a non-whitespace character or the text
start. -/
def findSlashBack (text : String) : Nat → Option Nat
  | 0 => none
  | k + 1 =>
    let ch := charAtJS text k
    if ch = some '/' then some k
    else if ¬ isWsCharAt ch then none
    else findSlashBack text k

/-- The ancestor walk of collectCloseTagSuggestions: the nearest node in the
chain that has a tag and is unclosed or whose end tag starts after the cursor
(an absent endTagStart fails the comparison, as undefined does in the
source). -/
def closeTagAncestor (offset : Nat) : NodeChain → Option (String × Nat)
  | [] => none
  | n :: rest =>
    match n.tag with
    | some tag =>
      if !n.closed || endTagStartAfter offset n.endTagStart then
        some (tag, n.start)
      else closeTagAncestor offset rest
    | none => closeTagAncestor offset rest

/-! ## Suggestion builders (htmlCompletion.ts) -/

/-- collectOpenTagSuggestions: one replace item per provider tag over the
computed name range, with the LWC detail marker for the lwc provider. -/
def collectOpenTagSuggestions (env : CompletionEnv) (offset afterOpenBracket tagNameEnd : Nat) :
    List CompletionItem :=
  let range := getReplaceRange env.text offset afterOpenBracket tagNameEnd
  (enabledProviders env).flatMap (fun provider =>
    let detail := if provider.id = "lwc" then some "LWC tag" else none
    provider.tags.map (fun p =>
      { label := p.1
        kind := CompletionItemKind.Property
        detail := detail
        documentation := p.2.documentation
        textEdit := TextEdit.replace range p.1
        insertTextFormat := InsertTextFormat.PlainText }))

/-- The closing text suffix of collectCloseTagSuggestions: empty when an
EndTagClose token already follows tagNameEnd. -/
def closeTagSuffix (env : CompletionEnv) (tagNameEnd : Nat) : String :=
  if isFollowedBy env.scan tagNameEnd ScannerState.WithinEndTag TokenType.EndTagClose
  then "" else ">"

/-- The close-tag item before any re-indentation. -/
def plainCloseItem (env : CompletionEnv) (offset afterOpenBracket tagNameEnd : Nat)
    (tag : String) : CompletionItem :=
  { label := "/" ++ tag
    kind := CompletionItemKind.Property
    filterText := some ("/" ++ tag ++ closeTagSuffix env tagNameEnd)
    textEdit := TextEdit.replace (getReplaceRange env.text offset afterOpenBracket tagNameEnd)
      ("/" ++ tag ++ closeTagSuffix env tagNameEnd)
    insertTextFormat := InsertTextFormat.PlainText }

/-- The close-tag item after re-indentation: the replacement is extended to
cover the current line's leading whitespace and the opening line's indentation
is substituted; the filter text keeps the current indentation. -/
def reindentCloseItem (env : CompletionEnv) (offset afterOpenBracket tagNameEnd : Nat)
    (tag startIndent endIndent : String) : CompletionItem :=
  { plainCloseItem env offset afterOpenBracket tagNameEnd tag with
    textEdit := TextEdit.replace
      (getReplaceRange env.text offset (afterOpenBracket - 1 - endIndent.length) offset)
      (startIndent ++ "</" ++ tag ++ closeTagSuffix env tagNameEnd)
    filterText := some (endIndent ++ "</" ++ tag ++ closeTagSuffix env tagNameEnd) }

/-- collectCloseTagSuggestions from htmlCompletion.ts. -/
def collectCloseTagSuggestions (env : CompletionEnv) (offset : Nat) (node : NodeChain)
    (afterOpenBracket : Nat) (inOpenTag : Bool) (tagNameEnd : Nat) : List CompletionItem :=
  let curr := if inOpenTag then node.drop 1 else node
  match closeTagAncestor offset curr with
  | some (tag, currStart) =>
    match getLineIndent env.text currStart, getLineIndent env.text (afterOpenBracket - 1) with
    | some startIndent, some endIndent =>
      if startIndent ≠ endIndent then
        [reindentCloseItem env offset afterOpenBracket tagNameEnd tag startIndent endIndent]
      else [plainCloseItem env offset afterOpenBracket tagNameEnd tag]
    | _, _ => [plainCloseItem env offset afterOpenBracket tagNameEnd tag]
  | none =>
    if inOpenTag then []
    else
      (enabledProviders env).flatMap (fun provider =>
        provider.tags.map (fun p =>
          { label := "/" ++ p.1
            kind := CompletionItemKind.Property
            documentation := p.2.documentation
            filterText := some ("/" ++ p.1 ++ closeTagSuffix env tagNameEnd)
            textEdit := TextEdit.replace (getReplaceRange env.text offset afterOpenBracket tagNameEnd)
              ("/" ++ p.1 ++ closeTagSuffix env tagNameEnd)
            insertTextFormat := InsertTextFormat.PlainText }))

/-- The single auto-close item: a snippet insertion at the position right
after the closing angle bracket, whose final-cursor placeholder precedes the
matching end tag text. -/
def autoCloseItem (env : CompletionEnv) (tagCloseEnd : Nat) (tag : String) : CompletionItem :=
  { label := "</" ++ tag ++ ">"
    kind := CompletionItemKind.Property
    filterText := some ("</" ++ tag ++ ">")
    textEdit := TextEdit.insert (positionAt env.text tagCloseEnd) ("$0</" ++ tag ++ ">")
    insertTextFormat := InsertTextFormat.Snippet }

/-- collectAutoCloseTagSuggestion from htmlCompletion.ts: nothing when the
configuration suppresses it or the tag is a void element. -/
def collectAutoCloseTagSuggestion (env : CompletionEnv) (tagCloseEnd : Nat) (tag : String) :
    List CompletionItem :=
  if hideAuto env then []
  else if ¬ env.isEmptyElement tag then [autoCloseItem env tagCloseEnd tag]
  else []

/-- collectAttributeNameSuggestions from htmlCompletion.ts. -/
def collectAttributeNameSuggestions (env : CompletionEnv) (offset : Nat)
    (currentTag : String) (nameStart nameEnd : Nat) : List CompletionItem :=
  let replaceEnd := scanReplaceEnd env.text offset nameEnd
  let range := getReplaceRange env.text offset nameStart replaceEnd
  let value :=
    if isFollowedBy env.scan nameEnd ScannerState.AfterAttributeName TokenType.DelimiterAssign
    then "" else "=$1"
  let tag := jsToLowerCase currentTag
  (enabledProviders env).flatMap (fun provider =>
    (provider.attributes tag).map (fun a =>
      let attrName := a.1
      let info := a.2.1
      let type? := a.2.2
      let codeSnippet := if type? ≠ some "v" ∧ value ≠ "" then attrName ++ value else attrName
      { label := attrName
        detail := info.detail
        documentation := info.documentation
        kind := if type? = some "handler" then CompletionItemKind.Function
                else CompletionItemKind.Value
        textEdit := TextEdit.replace range codeSnippet
        insertTextFormat := InsertTextFormat.Snippet }))

/-- collectExpressionSuggestions from htmlCompletion.ts: some items when the
character at the cursor is a closing brace or closing angle bracket and an
opening brace occurs at or after valueStart before the cursor and the template
tag resolves; none otherwise (the source returns false). -/
def collectExpressionSuggestions (env : CompletionEnv) (offset valueStart : Nat) :
    Option (List CompletionItem) :=
  if offset < env.text.length ∧
      (charAtJS env.text offset = some '\x7d' ∨ charAtJS env.text offset = some '>') then
    match ((List.range offset).drop valueStart).reverse.find?
        (fun i => charAtJS env.text i = some '\x7b') with
    | some i =>
      match env.templateTag with
      | some templateTag =>
        let range := getReplaceRange env.text offset (i + 1) offset
        some ((enabledProviders env).flatMap (fun provider =>
          (provider.expressionValues templateTag).map (fun value =>
            { label := value
              kind := CompletionItemKind.Reference
              textEdit := TextEdit.replace range
                (value ++ (if charAtJS env.text offset = some '\x7d' then "" else "\x7d"))
              insertTextFormat := InsertTextFormat.PlainText })))
      | none => none
    | none => none
  else none

/-- collectAttributeValueSuggestions from htmlCompletion.ts.  The source reads
currentAttributeName before it is ever assigned when no attribute-name token
preceded; the embedding carries it as an Option and treats the unassigned case
as the empty attribute key. -/
def collectAttributeValueSuggestions (env : CompletionEnv) (offset : Nat)
    (currentTag : String) (currentAttributeName : Option String)
    (valueStart valueEnd : Nat) : List CompletionItem :=
  match collectExpressionSuggestions env offset valueStart with
  | some items => items
  | none =>
    let insideQuoted := valueStart < offset ∧ offset ≤ valueEnd ∧
      charAtJS env.text valueStart = some '"'
    let range :=
      if insideQuoted then
        let valueEnd' :=
          if offset < valueEnd ∧ charAtJS env.text (valueEnd - 1) = some '"'
          then valueEnd - 1 else valueEnd
        let wsBefore := getWordStart env.text offset (valueStart + 1)
        let wsAfter := getWordEnd env.text offset valueEnd'
        getReplaceRange env.text offset wsBefore wsAfter
      else getReplaceRange env.text offset valueStart valueEnd
    let addQuotes := ¬ insideQuoted
    let tag := jsToLowerCase currentTag
    let attrName := (match currentAttributeName with | some a => jsToLowerCase a | none => "")
    (enabledProviders env).flatMap (fun provider =>
      (provider.values tag attrName).map (fun value =>
        let insertText := if addQuotes then "\"" ++ value ++ "\"" else value
        { label := value
          filterText := some insertText
          kind := CompletionItemKind.Unit
          textEdit := TextEdit.replace range insertText
          insertTextFormat := InsertTextFormat.PlainText }))

/-- collectTagSuggestions: open-tag suggestions followed by close-tag
suggestions in the open-tag mode. -/
def collectTagSuggestions (env : CompletionEnv) (offset : Nat) (node : NodeChain)
    (tagStart tagEnd : Nat) : List CompletionItem :=
  collectOpenTagSuggestions env offset tagStart tagEnd ++
    collectCloseTagSuggestions env offset node tagStart true tagEnd

/-- scanNextForEndPos: when the cursor sits at the current token's end, peek
the next token; if it is of the expected type and starts at the cursor, its
end is used, else the cursor offset. -/
def scanNextForEndPos (offset : Nat) (t : Token) (rest : List Token)
    (nextToken : TokenType) : Nat :=
  if offset = t.endPos then
    match rest with
    | next :: _ =>
      if next.type = nextToken ∧ next.offset = offset then next.endPos else offset
    | [] => offset
  else offset

/-! ## The doComplete token dispatch loop -/

/-- The outcome of dispatching one token: either the loop resolved a context
and returns its items, or it continues with possibly updated currentTag and
currentAttributeName. -/
inductive StepOut where
  | done (items : List CompletionItem)
  | next (currentTag : String) (currentAttributeName : Option String)
deriving DecidableEq, Repr

/-- One iteration of the doComplete scan loop: the while condition (EOS, token
start beyond the cursor) and the switch over the token type.  The token list
tail is only consulted by scanNextForEndPos (the disposable peek). -/
def completionStep (env : CompletionEnv) (offset : Nat) (node : NodeChain)
    (t : Token) (rest : List Token)
    (currentTag : String) (currentAttributeName : Option String) : StepOut :=
  if t.type = TokenType.EOS then StepOut.done []
  else if offset < t.offset then StepOut.done []
  else
    match t.type with
    | TokenType.StartTagOpen =>
      if t.endPos = offset then
        let endPos := scanNextForEndPos offset t rest TokenType.StartTag
        StepOut.done (collectTagSuggestions env offset node offset endPos)
      else StepOut.next currentTag currentAttributeName
    | TokenType.StartTag =>
      if t.offset ≤ offset ∧ offset ≤ t.endPos then
        StepOut.done (collectOpenTagSuggestions env offset t.offset t.endPos)
      else StepOut.next t.text currentAttributeName
    | TokenType.AttributeName =>
      if t.offset ≤ offset ∧ offset ≤ t.endPos then
        StepOut.done (collectAttributeNameSuggestions env offset currentTag t.offset t.endPos)
      else StepOut.next currentTag (some t.text)
    | TokenType.DelimiterAssign =>
      if t.endPos = offset then
        StepOut.done
          (collectAttributeValueSuggestions env offset currentTag currentAttributeName
            t.endPos offset)
      else StepOut.next currentTag currentAttributeName
    | TokenType.AttributeValue =>
      if t.offset ≤ offset ∧ offset ≤ t.endPos then
        StepOut.done
          (collectAttributeValueSuggestions env offset currentTag currentAttributeName
            t.offset t.endPos)
      else StepOut.next currentTag currentAttributeName
    | TokenType.Whitespace =>
      if offset ≤ t.endPos then
        match t.state with
        | ScannerState.AfterOpeningStartTag =>
          let startPos := t.offset
          let endTagPos := scanNextForEndPos offset t rest TokenType.StartTag
          StepOut.done (collectTagSuggestions env offset node startPos endTagPos)
        | ScannerState.WithinTag =>
          StepOut.done (collectAttributeNameSuggestions env offset currentTag t.endPos offset)
        | ScannerState.AfterAttributeName =>
          StepOut.done (collectAttributeNameSuggestions env offset currentTag t.endPos offset)
        | ScannerState.BeforeAttributeValue =>
          StepOut.done
            (collectAttributeValueSuggestions env offset currentTag currentAttributeName
              t.endPos offset)
        | ScannerState.AfterOpeningEndTag =>
          StepOut.done (collectCloseTagSuggestions env offset node (t.offset - 1) false offset)
        | _ => StepOut.next currentTag currentAttributeName
      else StepOut.next currentTag currentAttributeName
    | TokenType.EndTagOpen =>
      if offset ≤ t.endPos then
        let afterOpenBracket := t.offset + 1
        let endOffset := scanNextForEndPos offset t rest TokenType.EndTag
        StepOut.done (collectCloseTagSuggestions env offset node afterOpenBracket false endOffset)
      else StepOut.next currentTag currentAttributeName
    | TokenType.EndTag =>
      if offset ≤ t.endPos then
        match findSlashBack env.text t.offset with
        | some start =>
          StepOut.done (collectCloseTagSuggestions env offset node start false t.endPos)
        | none => StepOut.next currentTag currentAttributeName
      else StepOut.next currentTag currentAttributeName
    | TokenType.StartTagClose =>
      if offset ≤ t.endPos then
        if currentTag ≠ "" then
          StepOut.done (collectAutoCloseTagSuggestion env t.endPos currentTag)
        else StepOut.next currentTag currentAttributeName
      else StepOut.next currentTag currentAttributeName
    | _ =>
      match collectExpressionSuggestions env offset (t.endPos - t.offset) with
      | some items => StepOut.done items
      | none =>
        if offset ≤ t.endPos then StepOut.done []
        else StepOut.next currentTag currentAttributeName

/-- The doComplete scan loop over the token stream anchored at the node
start. -/
def completionLoop (env : CompletionEnv) (offset : Nat) (node : NodeChain) :
    List Token → String → Option String → List CompletionItem
  | [], _, _ => []
  | t :: ts, currentTag, currentAttributeName =>
    match completionStep env offset node t ts currentTag currentAttributeName with
    | StepOut.done items => items
    | StepOut.next ct ca => completionLoop env offset node ts ct ca

/-- doComplete from htmlCompletion.ts: no node yields the empty list; else
scan from the node's start with currentTag initially empty (and
currentAttributeName unassigned) and dispatch on the first matching token. -/
def doComplete (env : CompletionEnv) (offset : Nat) (node : NodeChain) : CompletionList :=
  match node with
  | [] => { isIncomplete := false, items := [] }
  | n :: _ =>
    { isIncomplete := false
      items :=
        completionLoop env offset node (env.scan n.start ScannerState.WithinContent) "" none }

/-! ## doTagComplete (htmlCompletion.ts) -/

/-- The scan loop of doTagComplete: walk tokens whose end is at or before the
cursor and report whether one of the expected type ends exactly at the
cursor. -/
def tagCompleteScan (offset : Nat) (expected : TokenType) : List Token → Bool
  | [] => false
  | t :: ts =>
    if t.type = TokenType.EOS then false
    else if ¬ (t.endPos ≤ offset) then false
    else if t.type = expected ∧ t.endPos = offset then true
    else tagCompleteScan offset expected ts

/-- The slash branch ancestor walk: skip closed nodes. -/
def skipClosed : NodeChain → NodeChain
  | [] => []
  | n :: rest => if n.closed then skipClosed rest else n :: rest

/-- doTagComplete from htmlCompletion.ts.  findNodeBefore is the external
parse-tree accessor; an empty chain stands for no node. -/
def doTagComplete (env : CompletionEnv) (findNodeBefore : Nat → NodeChain)
    (offset : Nat) : Option String :=
  if offset = 0 then none
  else
    let c? := charAtJS env.text (offset - 1)
    if c? = some '>' then
      match findNodeBefore offset with
      | [] => none
      | n :: _ =>
        match n.tag with
        | some tag =>
          if ¬ env.isEmptyElement tag ∧ n.start < offset ∧
              (match n.endTagStart with | none => true | some e => decide (offset < e)) = true then
            if tagCompleteScan offset TokenType.StartTagClose
                (env.scan n.start ScannerState.WithinContent) then
              some ("$0</" ++ tag ++ ">")
            else none
          else none
        | none => none
    else if c? = some '/' then
      match skipClosed (findNodeBefore offset) with
      | [] => none
      | n :: _ =>
        match n.tag with
        | some tag =>
          if tagCompleteScan offset TokenType.EndTagOpen
              (env.scan n.start ScannerState.WithinContent) then
            some (tag ++ ">")
          else none
        | none => none
    else none

/-! ## Registry lemmas -/

theorem mapGet_mapSet_self (m : TagMap) (k : String) (v : TagInfo) :
    mapGet (mapSet m k v) k = some v := by
  induction m with
  | nil => simp [mapSet, mapGet]
  | cons p rest ih =>
    obtain ⟨k', v'⟩ := p
    by_cases h : k' = k
    · simp [mapSet, mapGet, h]
    · simp [mapSet, mapGet, h, ih]

theorem mapGet_mapDelete_self (m : TagMap) (k : String) :
    mapGet (mapDelete m k) k = none := by
  induction m with
  | nil => rfl
  | cons p rest ih =>
    obtain ⟨k', v'⟩ := p
    by_cases h : k' = k
    · simp only [mapDelete, List.filter_cons] at ih ⊢
      simp [h, ih]
    · simp only [mapDelete, List.filter_cons] at ih ⊢
      simp [h, mapGet, ih]

theorem mapGet_mapSet_cases (m : TagMap) (k k2 : String) (v i : TagInfo)
    (h : mapGet (mapSet m k v) k2 = some i) :
    (k2 = k ∧ i = v) ∨ mapGet m k2 = some i := by
  induction m with
  | nil =>
    simp only [mapSet, mapGet] at h
    by_cases hk : k = k2
    · simp [hk] at h; exact Or.inl ⟨hk.symm, h.symm⟩
    · simp [hk] at h
  | cons p rest ih =>
    obtain ⟨k', v'⟩ := p
    by_cases hk : k' = k
    · simp only [mapSet, hk, if_pos rfl, mapGet] at h
      by_cases hk2 : k = k2
      · simp [hk2] at h
        exact Or.inl ⟨hk2.symm, h.symm⟩
      · simp [hk2] at h
        subst hk
        simp [mapGet, hk2, h]
    · simp only [mapSet, if_neg hk, mapGet] at h
      by_cases hk2 : k' = k2
      · simp [hk2] at h
        subst hk2
        simp [mapGet, h]
      · simp only [if_neg hk2] at h
        rcases ih h with hl | hr
        · exact Or.inl hl
        · simp [mapGet, hk2, hr]

/-- Claim C2: upsert followed by get returns the very record that was stored,
and remove followed by get returns nothing, over arbitrary prior registry
contents (last write wins for the key). -/
theorem registry_roundtrip_C2 (m : TagMap) (tag uri : String) (md : Metadata) :
    getLwcByTag (addCustomTag m tag uri md) tag = some (customTagInfo tag uri md) ∧
    getLwcByTag (removeCustomTag m tag) tag = none := by
  constructor
  · exact mapGet_mapSet_self m tag (customTagInfo tag uri md)
  · exact mapGet_mapDelete_self m tag

/-- Claim C10: the single-file upsert path always stores a present declaration
location; when the compiler metadata carries none, it is the zero range at the
file's uri. -/
theorem addCustomTag_location_default_C10 (m : TagMap) (tag uri : String)
    (md : Metadata) (h : md.declarationLoc = none) :
    getLwcByTag (addCustomTag m tag uri md) tag = some (customTagInfo tag uri md) ∧
    (customTagInfo tag uri md).location =
      some { uri := uri,
             range := { start := { line := 0, character := 0 },
                        endPos := { line := 0, character := 0 } } } := by
  refine ⟨mapGet_mapSet_self m tag (customTagInfo tag uri md), ?_⟩
  simp [customTagInfo, h]

/-- Witness for C10 at a concrete metadata with absent declarationLoc. -/
theorem addCustomTag_location_default_C10_witness :
    ({ doc := some "d" } : Metadata).declarationLoc = none ∧
    (getLwcByTag (addCustomTag [] "c-foo" "file:uri" { doc := some "d" }) "c-foo" =
        some (customTagInfo "c-foo" "file:uri" { doc := some "d" }) ∧
      (customTagInfo "c-foo" "file:uri" ({ doc := some "d" } : Metadata)).location =
        some { uri := "file:uri",
               range := { start := { line := 0, character := 0 },
                          endPos := { line := 0, character := 0 } } }) :=
  ⟨rfl, addCustomTag_location_default_C10 [] "c-foo" "file:uri" { doc := some "d" } rfl⟩

/-! ## Standard-load lemmas (claim C5) -/

/-- Kebab-case in the sense the claim uses: no ASCII capital letter remains. -/
def noUpperName (s : String) : Bool :=
  s.data.all (fun c => !c.isUpper)

theorem isUpper_toLower_false (c : Char) (h : c.isUpper = true) :
    (c.toLower).isUpper = false := by
  have hn : 65 ≤ c.toNat ∧ c.toNat ≤ 90 := by
    simp only [Char.isUpper, Bool.and_eq_true, decide_eq_true_eq] at h
    constructor
    · exact h.1
    · exact h.2
  unfold Char.toLower
  rw [if_pos hn]
  have h65 : 65 ≤ c.toNat := hn.1
  have h90 : c.toNat ≤ 90 := hn.2
  set n := c.toNat with hdef
  interval_cases n <;> decide

theorem kebabCase_noUpper (s : String) : noUpperName (kebabCase s) = true := by
  show (s.data.foldr (fun c acc => if c.isUpper then '-' :: c.toLower :: acc else c :: acc)
    []).all (fun c => !c.isUpper) = true
  induction s.data with
  | nil => rfl
  | cons c cs ih =>
    by_cases h : c.isUpper = true
    · simp [h, List.all_cons, ih, isUpper_toLower_false c h]
    · simp only [Bool.not_eq_true] at h
      simp [h, List.all_cons, ih]

theorem loadStandardComponents_mem (lwcStandard : List (String × StdTagDesc)) :
    ∀ (m : TagMap) (k : String) (i : TagInfo),
      mapGet (loadStandardComponents lwcStandard m) k = some i →
        mapGet m k = some i ∨
          ∃ p ∈ lwcStandard, k = "lightning-" ++ p.1 ∧ i = stdTagInfo p.2 := by
  induction lwcStandard with
  | nil => intro m k i h; exact Or.inl h
  | cons p rest ih =>
    intro m k i h
    simp only [loadStandardComponents, List.foldl_cons] at h
    rcases ih _ k i h with hm | ⟨q, hq, hk, hi⟩
    · rcases mapGet_mapSet_cases m ("lightning-" ++ p.1) k (stdTagInfo p.2) i hm with
        ⟨hk, hi⟩ | hbase
      · exact Or.inr ⟨p, List.mem_cons_self p rest, hk, hi⟩
      · exact Or.inl hbase
    · exact Or.inr ⟨q, List.mem_cons_of_mem p hq, hk, hi⟩

theorem stdTagInfo_attr_names (d : StdTagDesc) (a : AttributeInfo)
    (h : a ∈ (stdTagInfo d).attributes) : ∃ src, a.name = kebabCase src := by
  unfold stdTagInfo at h
  cases hd : d.attributes with
  | none => simp [hd] at h
  | some attrs =>
    simp only [hd, List.mem_map] at h
    obtain ⟨src, _, hsrc⟩ := h
    exact ⟨src.name, by rw [← hsrc]⟩

/-- Claim C5: after a bulk standard load into the empty registry, every
registered tag sits under the fixed lightning- prefix and every attribute name
of every registered record is kebab-case (no capital letter survives the
conversion). -/
theorem loadStandardComponents_kebab_C5 (lwcStandard : List (String × StdTagDesc))
    (k : String) (i : TagInfo)
    (h : mapGet (loadStandardComponents lwcStandard []) k = some i) :
    (∃ base, k = "lightning-" ++ base) ∧
      ∀ a ∈ i.attributes, noUpperName a.name = true := by
  rcases loadStandardComponents_mem lwcStandard [] k i h with hm | ⟨p, _, hk, hi⟩
  · simp [mapGet] at hm
  · refine ⟨⟨p.1, hk⟩, ?_⟩
    intro a ha
    obtain ⟨src, hsrc⟩ := stdTagInfo_attr_names p.2 a (hi ▸ ha)
    rw [hsrc]
    exact kebabCase_noUpper src

/-- The concrete standard-tag description used by the C5 witness. -/
def stdDescW : List (String × StdTagDesc) :=
  [("button", { description := some "Button",
                attributes := some [{ name := "iconName", typeName := some "string" }] })]

/-- Witness for C5: a description whose attribute iconName is stored as a
kebab-case name under lightning-button. -/
theorem loadStandardComponents_kebab_C5_witness :
    mapGet (loadStandardComponents stdDescW []) "lightning-button" =
      some (stdTagInfo (stdDescW.head (by decide)).2) ∧
    ((∃ base, "lightning-button" = "lightning-" ++ base) ∧
      ∀ a ∈ (stdTagInfo (stdDescW.head (by decide)).2).attributes,
        noUpperName a.name = true) :=
  ⟨by decide,
    loadStandardComponents_kebab_C5 stdDescW "lightning-button"
      (stdTagInfo (stdDescW.head (by decide)).2) (by decide)⟩

/-! ## Scan failure handling (claim C4) -/

/-- The map component of loadCustomTagsFromFiles as a pure fold. -/
def applyFiles (m : TagMap) (files : List ScanFile) : TagMap :=
  files.foldl (fun mm f => (addCustomTagFromFile mm f).1) m

theorem loadCustomTagsFromFiles_fst_aux (files : List ScanFile) :
    ∀ (m : TagMap) (l : List String),
      (files.foldl (fun acc f =>
        let r := addCustomTagFromFile acc.1 f
        (r.1, acc.2 ++ r.2)) (m, l)).1 = applyFiles m files := by
  induction files with
  | nil => intro m l; rfl
  | cons f rest ih =>
    intro m l
    simp only [List.foldl_cons, applyFiles]
    exact ih _ _

theorem loadCustomTagsFromFiles_fst (m : TagMap) (files : List ScanFile) :
    (loadCustomTagsFromFiles m files).1 = applyFiles m files :=
  loadCustomTagsFromFiles_fst_aux files m []

/-- A component file whose compile returns absent metadata together with an
empty diagnostics list. -/
def scanFileSilent : ScanFile :=
  { file := "cmp.js", uri := "file:cmp.js", tag := some "c-cmp",
    compileResult := Except.ok (none, []) }

/-- Counterexample to C4 as stated: for a file whose compiler outcome is
absent metadata with no diagnostics, the registry entry is indeed unchanged,
but nothing at all is written to the diagnostic sink, contradicting the
claim's "the failure is reported to the diagnostic sink". -/
theorem scan_silent_failure_unreported_C4_counterexample :
    scanFileSilent.compileResult = Except.ok (none, []) ∧
    (addCustomTagFromFile [] scanFileSilent).1 = [] ∧
    (addCustomTagFromFile [] scanFileSilent).2 = [] :=
  ⟨rfl, rfl, rfl⟩

/-- Claim C4 as amended: when the compiler throws or returns absent metadata,
the registry is left exactly as it was and the scan continues over the
remaining files; a compiler throw is always reported to the sink, while
absent metadata is reported exactly when the compiler supplied a non-empty
diagnostics list. -/
theorem scan_failure_skips_and_continues_C4 (m : TagMap) (f : ScanFile)
    (rest : List ScanFile) (tg : String) (htag : f.tag = some tg)
    (hfail : (∃ e, f.compileResult = Except.error e) ∨
      (∃ d, f.compileResult = Except.ok (none, d))) :
    (addCustomTagFromFile m f).1 = m ∧
    (loadCustomTagsFromFiles m (f :: rest)).1 = (loadCustomTagsFromFiles m rest).1 ∧
    ((∃ e, f.compileResult = Except.error e) → (addCustomTagFromFile m f).2 ≠ []) ∧
    (∀ d, f.compileResult = Except.ok (none, d) →
      ((addCustomTagFromFile m f).2 ≠ [] ↔ d ≠ [])) := by
  have hunchanged : (addCustomTagFromFile m f).1 = m := by
    rcases hfail with ⟨e, he⟩ | ⟨d, hd⟩
    · simp [addCustomTagFromFile, htag, he]
    · simp only [addCustomTagFromFile, htag, hd]
  refine ⟨hunchanged, ?_, ?_, ?_⟩
  · rw [loadCustomTagsFromFiles_fst, loadCustomTagsFromFiles_fst]
    show applyFiles ((addCustomTagFromFile m f).1) rest = applyFiles m rest
    rw [hunchanged]
  · rintro ⟨e, he⟩
    simp [addCustomTagFromFile, htag, he]
  · intro d hd
    simp only [addCustomTagFromFile, htag, hd]
    constructor
    · intro hne
      intro hdnil
      subst hdnil
      simp at hne
    · intro hdne
      have : 0 < d.length := List.length_pos.mpr hdne
      simp [this]

/-- A component file whose compile throws. -/
def scanFileThrow : ScanFile :=
  { file := "bad.js", uri := "file:bad.js", tag := some "c-bad",
    compileResult := Except.error "boom" }

/-- Witness for the amended C4 at a concrete throwing compile. -/
theorem scan_failure_skips_and_continues_C4_witness :
    (addCustomTagFromFile [] scanFileThrow).1 = [] ∧
    (loadCustomTagsFromFiles [] [scanFileThrow]).1 = (loadCustomTagsFromFiles [] []).1 ∧
    ((∃ e, scanFileThrow.compileResult = Except.error e) →
      (addCustomTagFromFile [] scanFileThrow).2 ≠ []) ∧
    (∀ d, scanFileThrow.compileResult = Except.ok (none, d) →
      ((addCustomTagFromFile [] scanFileThrow).2 ≠ [] ↔ d ≠ [])) :=
  scan_failure_skips_and_continues_C4 [] scanFileThrow [] "c-bad" rfl
    (Or.inl ⟨"boom", rfl⟩)

/-! ## Engine error-handling claims (C8, C9) -/

/-- Claim C8: when the parse tree yields no node at or before the offset,
doComplete returns the empty completion list with isIncomplete false. -/
theorem doComplete_no_node_empty_C8 (env : CompletionEnv) (offset : Nat) :
    doComplete env offset [] = { isIncomplete := false, items := [] } :=
  rfl

/-- Claim C9: doTagComplete inspects the single character before the cursor;
when the cursor is at the document start or that character is neither a
closing angle bracket nor a slash, it returns nothing. -/
theorem doTagComplete_other_char_none_C9 (env : CompletionEnv)
    (findNodeBefore : Nat → NodeChain) (offset : Nat)
    (h : offset = 0 ∨
      (charAtJS env.text (offset - 1) ≠ some '>' ∧
        charAtJS env.text (offset - 1) ≠ some '/')) :
    doTagComplete env findNodeBefore offset = none := by
  rcases h with h0 | ⟨hgt, hsl⟩
  · simp [doTagComplete, h0]
  · by_cases h0 : offset = 0
    · simp [doTagComplete, h0]
    · simp [doTagComplete, h0, hgt, hsl]

/-- The environment used by the C9 witness: a document whose character before
the cursor is a letter. -/
def envC9 : CompletionEnv :=
  { text := "ab"
    languageId := "html"
    providers := []
    settings := none
    scan := fun _ _ => []
    isEmptyElement := fun _ => false
    templateTag := none }

/-- Witness for C9: cursor after the letter b, nothing is returned. -/
theorem doTagComplete_other_char_none_C9_witness :
    (2 = 0 ∨
      (charAtJS envC9.text (2 - 1) ≠ some '>' ∧
        charAtJS envC9.text (2 - 1) ≠ some '/')) ∧
    doTagComplete envC9 (fun _ => []) 2 = none :=
  ⟨Or.inr (by decide),
    doTagComplete_other_char_none_C9 envC9 (fun _ => []) 2 (Or.inr (by decide))⟩

/-! ## End-to-end attribute-name completion (claim C3)

Document: an opening c-foo tag followed by a space, the closing angle
bracket, and the matching end tag; cursor at offset 7, right after the
space.  The external scanner stream for this document and the parse node are
supplied concretely. -/

/-- The registered custom tag provider of the C3 document: tag c-foo with the
single attribute label. -/
def provC3 : TagProvider :=
  { id := "lwc"
    applicable := fun _ => true
    tags := [("c-foo", { documentation := some "doc" })]
    attributes := fun tg => if tg = "c-foo" then [("label", ({ }, none))] else []
    values := fun _ _ => []
    expressionValues := fun _ => [] }

/-- The scanner of the C3 document: the stream from offset 0, and the stream
for the look-ahead restart at offset 7 in the after-attribute-name state. -/
def scanC3 : ScanFun := fun start state =>
  if start = 0 ∧ state = ScannerState.WithinContent then
    [ { type := TokenType.StartTagOpen, offset := 0, endPos := 1, text := "<",
        state := ScannerState.AfterOpeningStartTag }
    , { type := TokenType.StartTag, offset := 1, endPos := 6, text := "c-foo",
        state := ScannerState.WithinTag }
    , { type := TokenType.Whitespace, offset := 6, endPos := 7, text := " ",
        state := ScannerState.WithinTag }
    , { type := TokenType.StartTagClose, offset := 7, endPos := 8, text := ">",
        state := ScannerState.WithinContent }
    , { type := TokenType.EndTagOpen, offset := 8, endPos := 10, text := "</",
        state := ScannerState.AfterOpeningEndTag }
    , { type := TokenType.EndTag, offset := 10, endPos := 15, text := "c-foo",
        state := ScannerState.WithinEndTag }
    , { type := TokenType.EndTagClose, offset := 15, endPos := 16, text := ">",
        state := ScannerState.WithinContent } ]
  else if start = 7 ∧ state = ScannerState.AfterAttributeName then
    [ { type := TokenType.StartTagClose, offset := 7, endPos := 8, text := ">",
        state := ScannerState.WithinContent } ]
  else []

/-- The completion environment of the C3 document. -/
def envC3 : CompletionEnv :=
  { text := "<c-foo ></c-foo>"
    languageId := "html"
    providers := [provC3]
    settings := none
    scan := scanC3
    isEmptyElement := fun _ => false
    templateTag := none }

/-- The parse node of the C3 document (the c-foo element, already closed by
its end tag at offset 8). -/
def nodeC3 : NodeChain :=
  [ { tag := some "c-foo", start := 0, endOffset := 16, closed := true,
      endTagStart := some 8 } ]

/-- The text carried by an edit. -/
def editNewText : TextEdit → String
  | TextEdit.replace _ s => s
  | TextEdit.insert _ s => s

/-- Counterexample to C3 as stated: on the claimed document the engine does
return a single label suggestion, but its insertion text is label=$1, and no
returned item carries the claimed insertion text with the quoted
placeholder. -/
theorem attr_snippet_C3_counterexample :
    (doComplete envC3 7 nodeC3).items ≠ [] ∧
    (doComplete envC3 7 nodeC3).items.all
      (fun it => editNewText it.textEdit ≠ "label=\"$1\"") = true := by
  constructor
  · decide
  · decide

/-- Claim C3 as amended: the document yields exactly one attribute-name
suggestion labelled label, a replace edit over the empty range at the cursor
position (line 0, character 7), with insertion snippet label=$1 (the value
placeholder is appended without quotes). -/
theorem attr_snippet_C3_amended :
    (doComplete envC3 7 nodeC3).items =
      [{ label := "label"
         kind := CompletionItemKind.Value
         textEdit := TextEdit.replace
           { start := { line := 0, character := 7 }, endPos := { line := 0, character := 7 } }
           "label=$1"
         insertTextFormat := InsertTextFormat.Snippet }] := by
  decide

/-! ## Loop prefix machinery (claims C1, C6)

The switch of the scan loop names nine token types; any of them whose span
ends strictly before the cursor neither matches its context test nor stops
the loop, and only updates currentTag (on StartTag) or currentAttributeName
(on AttributeName). -/

/-- The token types carrying their own case in the scan loop switch. -/
def structuralTok : TokenType → Bool
  | TokenType.StartTagOpen => true
  | TokenType.StartTag => true
  | TokenType.AttributeName => true
  | TokenType.DelimiterAssign => true
  | TokenType.AttributeValue => true
  | TokenType.Whitespace => true
  | TokenType.EndTagOpen => true
  | TokenType.EndTag => true
  | TokenType.StartTagClose => true
  | _ => false

/-- The currentTag value after the loop passes over a token list. -/
def trackTag (tokens : List Token) (ct : String) : String :=
  tokens.foldl (fun acc u => if u.type = TokenType.StartTag then u.text else acc) ct

/-- The currentAttributeName value after the loop passes over a token list. -/
def trackAttr (tokens : List Token) (ca : Option String) : Option String :=
  tokens.foldl (fun acc u => if u.type = TokenType.AttributeName then some u.text else acc) ca

theorem completionStep_skip (env : CompletionEnv) (offset : Nat) (node : NodeChain)
    (t : Token) (ts : List Token) (ct : String) (ca : Option String)
    (hstruct : structuralTok t.type = true) (hle : t.offset ≤ t.endPos)
    (hlt : t.endPos < offset) :
    completionStep env offset node t ts ct ca =
      StepOut.next (if t.type = TokenType.StartTag then t.text else ct)
        (if t.type = TokenType.AttributeName then some t.text else ca) := by
  obtain ⟨ty, off, en, tx, st⟩ := t
  simp only at hstruct hle hlt ⊢
  cases ty
  case StartTagOpen =>
    have h0 : ¬ offset < off := by omega
    have h1 : ¬ en = offset := by omega
    simp [completionStep, h0, h1]
  case StartTag =>
    have h0 : ¬ offset < off := by omega
    have h1 : ¬ (off ≤ offset ∧ offset ≤ en) := by omega
    simp [completionStep, h0, h1]
  case StartTagClose =>
    have h0 : ¬ offset < off := by omega
    have h1 : ¬ offset ≤ en := by omega
    simp [completionStep, h0, h1]
  case EndTagOpen =>
    have h0 : ¬ offset < off := by omega
    have h1 : ¬ offset ≤ en := by omega
    simp [completionStep, h0, h1]
  case EndTag =>
    have h0 : ¬ offset < off := by omega
    have h1 : ¬ offset ≤ en := by omega
    simp [completionStep, h0, h1]
  case EndTagClose => simp [structuralTok] at hstruct
  case DelimiterAssign =>
    have h0 : ¬ offset < off := by omega
    have h1 : ¬ en = offset := by omega
    simp [completionStep, h0, h1]
  case AttributeName =>
    have h0 : ¬ offset < off := by omega
    have h1 : ¬ (off ≤ offset ∧ offset ≤ en) := by omega
    simp [completionStep, h0, h1]
  case AttributeValue =>
    have h0 : ¬ offset < off := by omega
    have h1 : ¬ (off ≤ offset ∧ offset ≤ en) := by omega
    simp [completionStep, h0, h1]
  case Whitespace =>
    have h0 : ¬ offset < off := by omega
    have h1 : ¬ offset ≤ en := by omega
    simp [completionStep, h0, h1]
  case Content => simp [structuralTok] at hstruct
  case Unknown => simp [structuralTok] at hstruct
  case EOS => simp [structuralTok] at hstruct

theorem completionLoop_append (env : CompletionEnv) (offset : Nat) (node : NodeChain)
    (pre rest : List Token) :
    ∀ (ct : String) (ca : Option String),
      (∀ u ∈ pre, structuralTok u.type = true ∧ u.offset ≤ u.endPos ∧ u.endPos < offset) →
      completionLoop env offset node (pre ++ rest) ct ca =
        completionLoop env offset node rest (trackTag pre ct) (trackAttr pre ca) := by
  induction pre with
  | nil => intro ct ca _; rfl
  | cons u us ih =>
    intro ct ca hpre
    obtain ⟨hstruct, hle, hlt⟩ := hpre u (List.mem_cons_self u us)
    have hrest : ∀ v ∈ us, structuralTok v.type = true ∧ v.offset ≤ v.endPos ∧ v.endPos < offset :=
      fun v hv => hpre v (List.mem_cons_of_mem u hv)
    show (match completionStep env offset node u (us ++ rest) ct ca with
      | StepOut.done items => items
      | StepOut.next ct2 ca2 => completionLoop env offset node (us ++ rest) ct2 ca2) =
        completionLoop env offset node rest (trackTag (u :: us) ct) (trackAttr (u :: us) ca)
    rw [completionStep_skip env offset node u (us ++ rest) ct ca hstruct hle hlt]
    exact ih _ _ hrest

/-! ## Attribute-name context exclusivity (claim C1) -/

theorem collectAttributeNameSuggestions_shape (env : CompletionEnv) (offset : Nat)
    (ct : String) (nameStart nameEnd : Nat) (item : CompletionItem)
    (h : item ∈ collectAttributeNameSuggestions env offset ct nameStart nameEnd) :
    (item.kind = CompletionItemKind.Function ∨ item.kind = CompletionItemKind.Value) ∧
    item.insertTextFormat = InsertTextFormat.Snippet ∧
    ∃ r s, item.textEdit = TextEdit.replace r s := by
  simp only [collectAttributeNameSuggestions, List.mem_flatMap, List.mem_map] at h
  obtain ⟨provider, _, a, _, hitem⟩ := h
  subst hitem
  refine ⟨?_, rfl, ?_⟩
  · by_cases hh : a.2.2 = some "handler"
    · simp [hh]
    · simp [hh]
  · exact ⟨_, _, rfl⟩

/-- Claim C1: when the cursor lies strictly inside an AttributeName token of
the re-scanned stream (all earlier tokens being ordinary switch-handled
tokens ending before the cursor), doComplete resolves to the attribute-name
context alone: the whole result is one call to the attribute-name builder for
some current tag, and every returned item is an attribute-name suggestion
(Function or Value kind, snippet replace edit) — never a tag or
attribute-value suggestion. -/
theorem attr_name_only_C1 (env : CompletionEnv) (offset : Nat)
    (n : NodeData) (anc : List NodeData) (pre rest : List Token) (t : Token)
    (hscan : env.scan n.start ScannerState.WithinContent = pre ++ t :: rest)
    (hpre : ∀ u ∈ pre, structuralTok u.type = true ∧ u.offset ≤ u.endPos ∧ u.endPos < offset)
    (htype : t.type = TokenType.AttributeName)
    (hlo : t.offset < offset) (hhi : offset < t.endPos) :
    (∃ ct, (doComplete env offset (n :: anc)).items =
      collectAttributeNameSuggestions env offset ct t.offset t.endPos) ∧
    ∀ item ∈ (doComplete env offset (n :: anc)).items,
      (item.kind = CompletionItemKind.Function ∨ item.kind = CompletionItemKind.Value) ∧
      item.insertTextFormat = InsertTextFormat.Snippet ∧
      ∃ r s, item.textEdit = TextEdit.replace r s := by
  have hitems : (doComplete env offset (n :: anc)).items =
      collectAttributeNameSuggestions env offset (trackTag pre "") t.offset t.endPos := by
    show completionLoop env offset (n :: anc) (env.scan n.start ScannerState.WithinContent)
        "" none = _
    rw [hscan, completionLoop_append env offset (n :: anc) pre (t :: rest) "" none hpre]
    show (match completionStep env offset (n :: anc) t rest (trackTag pre "")
        (trackAttr pre none) with
      | StepOut.done items => items
      | StepOut.next ct2 ca2 => completionLoop env offset (n :: anc) rest ct2 ca2) = _
    obtain ⟨ty, off, en, tx, st⟩ := t
    simp only at htype hlo hhi ⊢
    subst htype
    have h0 : ¬ offset < off := by omega
    have h1 : off ≤ offset ∧ offset ≤ en := by omega
    simp [completionStep, h0, h1]
  refine ⟨⟨trackTag pre "", hitems⟩, ?_⟩
  intro item hmem
  rw [hitems] at hmem
  exact collectAttributeNameSuggestions_shape env offset (trackTag pre "") t.offset t.endPos
    item hmem

/-- The provider of the C1 witness document. -/
def provC1 : TagProvider :=
  { id := "lwc"
    applicable := fun _ => true
    tags := [("foo", { })]
    attributes := fun tg => if tg = "foo" then [("bar", ({ }, none))] else []
    values := fun _ _ => []
    expressionValues := fun _ => [] }

/-- Tokens before the attribute name in the C1 witness document. -/
def preC1 : List Token :=
  [ { type := TokenType.StartTagOpen, offset := 0, endPos := 1, text := "<",
      state := ScannerState.AfterOpeningStartTag }
  , { type := TokenType.StartTag, offset := 1, endPos := 4, text := "foo",
      state := ScannerState.WithinTag }
  , { type := TokenType.Whitespace, offset := 4, endPos := 5, text := " ",
      state := ScannerState.WithinTag } ]

/-- The attribute-name token of the C1 witness document. -/
def tC1 : Token :=
  { type := TokenType.AttributeName, offset := 5, endPos := 8, text := "bar",
    state := ScannerState.AfterAttributeName }

/-- Tokens after the attribute name in the C1 witness document. -/
def restC1 : List Token :=
  [ { type := TokenType.StartTagClose, offset := 8, endPos := 9, text := ">",
      state := ScannerState.WithinContent } ]

/-- The environment of the C1 witness document. -/
def envC1 : CompletionEnv :=
  { text := "<foo bar>"
    languageId := "html"
    providers := [provC1]
    settings := none
    scan := fun start state =>
      if start = 0 ∧ state = ScannerState.WithinContent then preC1 ++ tC1 :: restC1 else []
    isEmptyElement := fun _ => false
    templateTag := none }

/-- The parse node of the C1 witness document. -/
def nodeDataC1 : NodeData :=
  { tag := some "foo", start := 0, endOffset := 9, closed := false, endTagStart := none }

/-- Witness for C1 at cursor offset 6, strictly inside the bar attribute
name. -/
theorem attr_name_only_C1_witness :
    (∃ ct, (doComplete envC1 6 [nodeDataC1]).items =
      collectAttributeNameSuggestions envC1 6 ct tC1.offset tC1.endPos) ∧
    ∀ item ∈ (doComplete envC1 6 [nodeDataC1]).items,
      (item.kind = CompletionItemKind.Function ∨ item.kind = CompletionItemKind.Value) ∧
      item.insertTextFormat = InsertTextFormat.Snippet ∧
      ∃ r s, item.textEdit = TextEdit.replace r s :=
  attr_name_only_C1 envC1 6 nodeDataC1 [] preC1 restC1 tC1 rfl (by decide) rfl
    (by decide) (by decide)

/-! ## Auto-close suggestion (claim C6) -/

/-- Claim C6: with the cursor on (up to immediately after) the StartTagClose
token of a scanned start tag whose captured tag name is a configured void
element, doComplete yields no suggestion at all — in particular no auto-close
suggestion; when the tag is not void and auto-close is not disabled, the
result is exactly one auto-close item: a snippet insertion (not a
replacement) at the position right after the closing angle bracket whose
final-cursor placeholder precedes the matching end tag text. -/
theorem autoclose_void_C6 (env : CompletionEnv) (offset : Nat)
    (n : NodeData) (anc : List NodeData) (pre rest : List Token) (t : Token) (tag : String)
    (hscan : env.scan n.start ScannerState.WithinContent = pre ++ t :: rest)
    (hpre : ∀ u ∈ pre, structuralTok u.type = true ∧ u.offset ≤ u.endPos ∧ u.endPos < offset)
    (htype : t.type = TokenType.StartTagClose)
    (hlo : t.offset ≤ offset) (hhi : offset ≤ t.endPos)
    (htag : trackTag pre "" = tag) (hne : tag ≠ "") :
    (env.isEmptyElement tag = true → (doComplete env offset (n :: anc)).items = []) ∧
    (env.isEmptyElement tag = false → hideAuto env = false →
      (doComplete env offset (n :: anc)).items = [autoCloseItem env t.endPos tag]) := by
  have hitems : (doComplete env offset (n :: anc)).items =
      collectAutoCloseTagSuggestion env t.endPos tag := by
    show completionLoop env offset (n :: anc) (env.scan n.start ScannerState.WithinContent)
        "" none = _
    rw [hscan, completionLoop_append env offset (n :: anc) pre (t :: rest) "" none hpre]
    rw [htag]
    show (match completionStep env offset (n :: anc) t rest tag (trackAttr pre none) with
      | StepOut.done items => items
      | StepOut.next ct2 ca2 => completionLoop env offset (n :: anc) rest ct2 ca2) = _
    obtain ⟨ty, off, en, tx, st⟩ := t
    simp only at htype hlo hhi ⊢
    subst htype
    have h0 : ¬ offset < off := by omega
    simp [completionStep, h0, hhi, hne]
  constructor
  · intro hvoid
    rw [hitems]
    unfold collectAutoCloseTagSuggestion
    by_cases hh : hideAuto env
    · simp [hh]
    · simp [hh, hvoid]
  · intro hvoid hhide
    rw [hitems]
    unfold collectAutoCloseTagSuggestion
    simp [hhide, hvoid]

/-- Tokens before the StartTagClose in the C6 witness document. -/
def preC6 : List Token :=
  [ { type := TokenType.StartTagOpen, offset := 0, endPos := 1, text := "<",
      state := ScannerState.AfterOpeningStartTag }
  , { type := TokenType.StartTag, offset := 1, endPos := 3, text := "br",
      state := ScannerState.WithinTag } ]

/-- The StartTagClose token of the C6 witness document. -/
def tC6 : Token :=
  { type := TokenType.StartTagClose, offset := 3, endPos := 4, text := ">",
    state := ScannerState.WithinContent }

/-- The environment of the C6 witness document: br is a configured void
element. -/
def envC6 : CompletionEnv :=
  { text := "<br>"
    languageId := "html"
    providers := []
    settings := none
    scan := fun start state =>
      if start = 0 ∧ state = ScannerState.WithinContent then preC6 ++ [tC6] else []
    isEmptyElement := fun tg => tg == "br"
    templateTag := none }

/-- The parse node of the C6 witness document. -/
def nodeDataC6 : NodeData :=
  { tag := some "br", start := 0, endOffset := 4, closed := false, endTagStart := none }

/-- Witness for C6 at cursor offset 4, immediately after the closing angle
bracket of the void br start tag. -/
theorem autoclose_void_C6_witness :
    (envC6.isEmptyElement "br" = true → (doComplete envC6 4 [nodeDataC6]).items = []) ∧
    (envC6.isEmptyElement "br" = false → hideAuto envC6 = false →
      (doComplete envC6 4 [nodeDataC6]).items = [autoCloseItem envC6 tC6.endPos "br"]) :=
  autoclose_void_C6 envC6 4 nodeDataC6 [] preC6 [] tC6 "br" rfl (by decide) rfl
    (by decide) (by decide) (by decide) (by decide)

/-! ## Close-tag re-indentation (claim C7) -/

/-- Claim C7: once the ancestor walk found the tag to close, the suggestion
re-indents — extending the replacement over the current line's leading
whitespace and substituting the opening line's indentation — exactly when
both the opening tag's line and the insertion point's line have
pure-whitespace prefixes and those prefixes differ; otherwise (either prefix
broken by non-whitespace, or identical indentation) the suggestion is the
plain close-tag replacement with no whitespace change. -/
theorem closetag_reindent_C7 (env : CompletionEnv) (offset : Nat) (node : NodeChain)
    (afterOpenBracket : Nat) (inOpenTag : Bool) (tagNameEnd : Nat)
    (tag : String) (currStart : Nat)
    (hanc : closeTagAncestor offset (if inOpenTag then node.drop 1 else node) =
      some (tag, currStart)) :
    ((getLineIndent env.text currStart = none ∨
        getLineIndent env.text (afterOpenBracket - 1) = none ∨
        getLineIndent env.text currStart = getLineIndent env.text (afterOpenBracket - 1)) →
      collectCloseTagSuggestions env offset node afterOpenBracket inOpenTag tagNameEnd =
        [plainCloseItem env offset afterOpenBracket tagNameEnd tag]) ∧
    (∀ si ei, getLineIndent env.text currStart = some si →
      getLineIndent env.text (afterOpenBracket - 1) = some ei → si ≠ ei →
      collectCloseTagSuggestions env offset node afterOpenBracket inOpenTag tagNameEnd =
        [reindentCloseItem env offset afterOpenBracket tagNameEnd tag si ei]) := by
  constructor
  · intro h
    simp only [collectCloseTagSuggestions, hanc]
    cases hsi : getLineIndent env.text currStart with
    | none => rfl
    | some si =>
      cases hei : getLineIndent env.text (afterOpenBracket - 1) with
      | none => rfl
      | some ei =>
        rcases h with h | h | h
        · rw [hsi] at h; cases h
        · rw [hei] at h; cases h
        · rw [hsi, hei] at h
          have : si = ei := Option.some.inj h
          simp [this]
  · intro si ei hsi hei hne
    simp only [collectCloseTagSuggestions, hanc, hsi, hei]
    simp [hne]

/-- The environment of the C7 witness: a div opened with two spaces of
indentation, the cursor inside the end tag on an unindented line. -/
def envC7 : CompletionEnv :=
  { text := "  <div>\n</"
    languageId := "html"
    providers := []
    settings := none
    scan := fun _ _ => []
    isEmptyElement := fun _ => false
    templateTag := none }

/-- The parse node of the C7 witness: the unclosed div starting at offset 2. -/
def nodeC7 : NodeChain :=
  [ { tag := some "div", start := 2, endOffset := 10, closed := false, endTagStart := none } ]

/-- Witness for C7: the opening line's indentation (two spaces) differs from
the current line's indentation (empty), so the suggestion is the re-indented
item. -/
theorem closetag_reindent_C7_witness :
    collectCloseTagSuggestions envC7 10 nodeC7 9 false 10 =
      [reindentCloseItem envC7 10 9 10 "div" "  " ""] :=
  (closetag_reindent_C7 envC7 10 nodeC7 9 false 10 "div" 2 (by decide)).2
    "  " "" (by decide) (by decide) (by decide)
